import Mathlib

/-!
Verification of the RAW-image batch conversion pipeline
(src/image/convert-downsize-pipeline.py).

The pipeline is embedded shallowly:

* file names are split into a stem and a pathlib-style extension (the
  extension carries its leading dot, as in Python `Path.suffix`);
* paths are lists of components; the files found under INPUT_DIR are
  modelled as the list of their paths relative to INPUT_DIR (so that
  `raw_file.relative_to(input_dir)` is the file itself);
* the external RAW decoder (`rawpy.imread` + `postprocess`) is a
  parameter `decode : RelPath → Option Raster`, where `none` is a decode
  failure, and the possibility of a write failure is a parameter
  `writeOk : AbsPath → Bool`;
* the filesystem state of OUTPUT_DIR is the list of paths that exist,
  threaded through the per-file loop, so that `output_path.exists()` is
  list membership;
* console output (skip and convert notices, the final summary line) is a
  list of events, and `typer.Exit(1)` together with an unhandled
  exception are the constructors of `Outcome`.
-/

namespace ConvertPipeline

/-- Python `str.lower` on a single character, for the ASCII range that
extensions and format names use. -/
def lowerChar (c : Char) : Char :=
  if 65 ≤ c.toNat ∧ c.toNat ≤ 90 then Char.ofNat (c.toNat + 32) else c

/-- Python `str.lower` (ASCII range), used on `p.suffix.lower()` and
`fmt.lower()`. -/
def lowerStr (s : String) : String := ⟨s.data.map lowerChar⟩

/-- Python `str.upper` on a single character (ASCII range). -/
def upperChar (c : Char) : Char :=
  if 97 ≤ c.toNat ∧ c.toNat ≤ 122 then Char.ofNat (c.toNat - 32) else c

/-- Python `str.upper` (ASCII range), used on `fmt.upper()`. -/
def upperStr (s : String) : String := ⟨s.data.map upperChar⟩

/-- A file name, split as pathlib does: `stem` plus `suffix`, where the
suffix carries its leading dot and is empty for extension-less names. -/
structure FileName where
  stem : String
  suffix : String
deriving DecidableEq

/-- A path relative to INPUT_DIR: intermediate directory components plus
the file name. -/
structure RelPath where
  dirs : List String
  name : FileName
deriving DecidableEq

/-- An absolute path, as a list of components. -/
abbrev AbsPath := List String

/-- Source line 19: the supported RAW extension set. -/
def RAW_EXT : List String := [".cr2", ".dng"]

/-- Source line 79: `[p for p in input_dir.rglob("*") if p.suffix.lower() in
RAW_EXT]`, over the modelled tree of files under INPUT_DIR. -/
def discover (files : List RelPath) : List RelPath :=
  files.filter (fun p => decide (lowerStr p.name.suffix ∈ RAW_EXT))

/-- `PurePath.with_suffix`: replace the extension of the final component. -/
def withSuffix (p : RelPath) (s : String) : RelPath :=
  ⟨p.dirs, ⟨p.name.stem, s⟩⟩

/-- The `/` operator of pathlib on our path model. -/
def joinPath (base : AbsPath) (p : RelPath) : AbsPath :=
  base ++ p.dirs ++ [p.name.stem ++ p.name.suffix]

/-- Source line 89: `output_dir / rel_path.with_suffix(f".{fmt.lower()}")`. -/
def destPath (output_dir : AbsPath) (rel_path : RelPath) (fmt : String) : AbsPath :=
  joinPath output_dir (withSuffix rel_path ("." ++ lowerStr fmt))

/-- A decoded raster image: width and height of the pixel buffer. -/
structure Raster where
  width : Nat
  height : Nat
deriving DecidableEq

/-- A value in the Pillow `save` keyword mapping. -/
inductive SaveVal where
  | int (v : Int)
  | bool (b : Bool)
deriving DecidableEq

/-- Source lines 22-24: Pillow `save` kwargs based on format. -/
def _build_save_kwargs (fmt : String) (quality : Int) : List (String × SaveVal) :=
  if fmt = "jpeg" then
    [("quality", SaveVal.int quality), ("optimize", SaveVal.bool true)]
  else []

/-- Nearest-integer division, `round(a / b)` with half rounding up. -/
def roundDiv (a b : Nat) : Nat := (2 * a + b) / (2 * b)

/-- Modelled from the spec: the external imaging-library capability
"resize(raster, max_dim, filter) → raster" invoked through
`Image.thumbnail((resize, resize), LANCZOS)` on source line 41 and absent
from src — a thumbnail-style resize that only shrinks, never enlarges,
making the longer edge equal to the bound and preserving the aspect ratio
within rounding. -/
def thumbnail (img : Raster) (n : Nat) : Raster :=
  if img.width ≤ n ∧ img.height ≤ n then img
  else if img.height ≤ img.width then
    ⟨n, max 1 (roundDiv (img.height * n) img.width)⟩
  else
    ⟨max 1 (roundDiv (img.width * n) img.height), n⟩

/-- The record of one completed `img.save(output_path, format=fmt.upper(),
**_build_save_kwargs(fmt.lower(), quality))` call: where the file went,
the raster that was encoded, and the encoder arguments. -/
structure Saved where
  path : AbsPath
  img : Raster
  fmtArg : String
  kwargs : List (String × SaveVal)
deriving DecidableEq

/-- Source lines 27-44, `process_raw`: decode one RAW file (decode failure
propagates as `none`), resize when `resize and resize > 0`, then save to
the destination (write failure propagates as `none`); on success the
returned `Saved` records the write that happened. -/
def process_raw (decode : RelPath → Option Raster) (writeOk : AbsPath → Bool)
    (input_path : RelPath) (output_path : AbsPath)
    (resize : Option Int) (quality : Int) (fmt : String) : Option Saved :=
  match decode input_path with
  | none => none
  | some rgb =>
    let img := match resize with
      | some r => if 0 < r then thumbnail rgb r.toNat else rgb
      | none => rgb
    if writeOk output_path then
      some ⟨output_path, img, upperStr fmt, _build_save_kwargs (lowerStr fmt) quality⟩
    else none

/-- Console output of the orchestrator: the "No RAW files found." notice,
per-file skip and converting notices, and the final summary line. -/
inductive Event where
  | noFilesNotice
  | skip (src : RelPath) (dst : AbsPath)
  | converting (src : RelPath) (dst : AbsPath)
  | summary (total : Nat) (skips : Nat)
deriving DecidableEq

/-- State threaded through the per-file loop of `_do_convert`: the skip
counter, the progress-bar position, the writes performed so far, the
console events emitted so far, and the set of paths existing in
OUTPUT_DIR. -/
structure LoopState where
  skips : Nat
  progress : Nat
  writes : List Saved
  events : List Event
  fs : List AbsPath
deriving DecidableEq

/-- How one invocation of `_do_convert` ends: normal summary, the
`typer.Exit(1)` of the no-files branch, or an unhandled per-file
exception escaping from the named file. -/
inductive Outcome where
  | success (total : Nat) (skips : Nat)
  | noFiles
  | failed (f : RelPath)
deriving DecidableEq

/-- Everything observable from one `_do_convert` invocation. -/
structure RunOutput where
  writes : List Saved
  events : List Event
  outcome : Outcome
deriving DecidableEq

/-- Process exit status: 0 on success, 1 for the no-files `typer.Exit(1)`,
and none (language-default crash status) for an unhandled exception. -/
def exitStatus : Outcome → Option Nat
  | .success _ _ => some 0
  | .noFiles => some 1
  | .failed _ => none

/-- Source lines 87-106: the `for raw_file in raw_files` loop. Returns the
final loop state, plus the file whose conversion raised when the loop was
aborted by an unhandled exception. -/
def runLoop (decode : RelPath → Option Raster) (writeOk : AbsPath → Bool)
    (output_dir : AbsPath) (fmt : String) (resize : Option Int) (quality : Int) :
    List RelPath → LoopState → LoopState × Option RelPath
  | [], st => (st, none)
  | raw_file :: rest, st =>
    let output_path := destPath output_dir raw_file fmt
    if output_path ∈ st.fs then
      runLoop decode writeOk output_dir fmt resize quality rest
        { st with skips := st.skips + 1, progress := st.progress + 1,
                  events := st.events ++ [Event.skip raw_file output_path] }
    else
      let st1 := { st with
        events := st.events ++ [Event.converting raw_file output_path] }
      match process_raw decode writeOk raw_file output_path resize quality fmt with
      | none => (st1, some raw_file)
      | some sv =>
        runLoop decode writeOk output_dir fmt resize quality rest
          { st1 with writes := st1.writes ++ [sv], progress := st1.progress + 1,
                     fs := output_path :: st1.fs }

/-- Loop state at the start of a run: zero counters, no writes or events,
and the paths already existing in OUTPUT_DIR. -/
def initState (existing : List AbsPath) : LoopState := ⟨0, 0, [], [], existing⟩

/-- Source lines 71-112, `_do_convert`: discover the RAW files, bail out
with the no-files notice and `typer.Exit(1)` when there are none, run the
per-file loop, and emit the summary line when the loop finishes without an
unhandled exception. -/
def _do_convert (decode : RelPath → Option Raster) (writeOk : AbsPath → Bool)
    (files : List RelPath) (existing : List AbsPath) (output_dir : AbsPath)
    (fmt : String) (resize : Option Int) (quality : Int) : RunOutput :=
  let raw_files := discover files
  if raw_files.isEmpty then
    { writes := [], events := [Event.noFilesNotice], outcome := Outcome.noFiles }
  else
    match runLoop decode writeOk output_dir fmt resize quality raw_files
        (initState existing) with
    | (st, some f) =>
      { writes := st.writes, events := st.events, outcome := Outcome.failed f }
    | (st, none) =>
      { writes := st.writes,
        events := st.events ++ [Event.summary raw_files.length st.skips],
        outcome := Outcome.success raw_files.length st.skips }

/-- Source lines 51-64: the default command (typer callback); it forwards
to `_do_convert`. -/
def main (decode : RelPath → Option Raster) (writeOk : AbsPath → Bool)
    (files : List RelPath) (existing : List AbsPath) (output_dir : AbsPath)
    (fmt : String) (resize : Option Int) (quality : Int) : RunOutput :=
  _do_convert decode writeOk files existing output_dir fmt resize quality

/-- Defaults of the default command: `--format jpeg`, `--resize 384`,
`--quality 92`. -/
def mainDefaults : String × Option Int × Int := ("jpeg", some 384, 92)

/-- Source lines 118-128: the explicit `convert` sub-command; it forwards
to `_do_convert`. -/
def convert (decode : RelPath → Option Raster) (writeOk : AbsPath → Bool)
    (files : List RelPath) (existing : List AbsPath) (output_dir : AbsPath)
    (fmt : String) (resize : Option Int) (quality : Int) : RunOutput :=
  _do_convert decode writeOk files existing output_dir fmt resize quality

/-- Defaults of the `convert` sub-command: `fmt="jpeg"`, `resize=384`,
`quality=92`. -/
def convertDefaults : String × Option Int × Int := ("jpeg", some 384, 92)

/-! Concrete fixtures used by witnesses. -/

/-- A decoder that always succeeds with the given raster. -/
def decAlways (r : Raster) : RelPath → Option Raster := fun _ => some r

/-- A decoder that always fails. -/
def decodeNone : RelPath → Option Raster := fun _ => none

/-- A filesystem on which every write succeeds. -/
def wOkAll : AbsPath → Bool := fun _ => true

/-! ## Claim C1: destination path computation -/

/-- Claim C1: for every file discovered under INPUT_DIR, the computed
destination path is OUTPUT_DIR joined with the relative path, the
extension replaced by a dot followed by the lowercased format string; and
the destination is independent of the input extension (hence of its
casing). -/
theorem dest_path_spec (output_dir : AbsPath) (fmt : String) (files : List RelPath)
    (p : RelPath) (hp : p ∈ discover files) :
    destPath output_dir p fmt
        = output_dir ++ p.dirs ++ [p.name.stem ++ ("." ++ lowerStr fmt)]
    ∧ ∀ s : String,
        destPath output_dir ⟨p.dirs, ⟨p.name.stem, s⟩⟩ fmt
          = destPath output_dir p fmt := by
  exact ⟨rfl, fun s => rfl⟩

/-- Witness for C1 on a concrete discovered file with an uppercase
extension. -/
theorem dest_path_spec_witness :
    (⟨["b"], ⟨"c", ".DNG"⟩⟩ : RelPath) ∈ discover [⟨["b"], ⟨"c", ".DNG"⟩⟩]
    ∧ destPath ["out"] ⟨["b"], ⟨"c", ".DNG"⟩⟩ "jpeg"
        = ["out"] ++ ["b"] ++ ["c" ++ ("." ++ lowerStr "jpeg")] :=
  ⟨by decide,
   (dest_path_spec ["out"] "jpeg" [⟨["b"], ⟨"c", ".DNG"⟩⟩] _ (by decide)).1⟩

/-! ## Claim C5: no RAW files found -/

/-- Claim C5: when discovery finds nothing, the run reports the no-files
notice, terminates with exit status 1, and writes nothing. -/
theorem no_files_spec (decode : RelPath → Option Raster) (writeOk : AbsPath → Bool)
    (files : List RelPath) (existing : List AbsPath) (output_dir : AbsPath)
    (fmt : String) (resize : Option Int) (quality : Int)
    (h : discover files = []) :
    _do_convert decode writeOk files existing output_dir fmt resize quality
        = ⟨[], [Event.noFilesNotice], Outcome.noFiles⟩
    ∧ exitStatus
        (_do_convert decode writeOk files existing output_dir fmt resize
          quality).outcome = some 1 := by
  have h1 : _do_convert decode writeOk files existing output_dir fmt resize quality
      = ⟨[], [Event.noFilesNotice], Outcome.noFiles⟩ := by
    unfold _do_convert
    rw [h]
    rfl
  exact ⟨h1, by rw [h1]; rfl⟩

/-- Witness for C5: a tree containing only a non-RAW file. -/
theorem no_files_spec_witness :
    discover [(⟨[], ⟨"x", ".jpg"⟩⟩ : RelPath)] = []
    ∧ _do_convert decodeNone wOkAll [⟨[], ⟨"x", ".jpg"⟩⟩] [] ["o"] "jpeg"
        (some 384) 92 = ⟨[], [Event.noFilesNotice], Outcome.noFiles⟩ :=
  ⟨by decide,
   (no_files_spec decodeNone wOkAll [⟨[], ⟨"x", ".jpg"⟩⟩] [] ["o"] "jpeg"
     (some 384) 92 (by decide)).1⟩

/-! ## Claim C7: discovery filter -/

/-- Claim C7: discovery enumerates exactly the files whose extension,
lowercased, is in the RAW extension set, so `.CR2`, `.cr2` and `.Cr2`
all match and any other extension is never discovered. -/
theorem discovery_spec :
    (∀ (files : List RelPath) (p : RelPath),
      p ∈ discover files
        ↔ p ∈ files
            ∧ (lowerStr p.name.suffix = ".cr2" ∨ lowerStr p.name.suffix = ".dng"))
    ∧ (∀ (files : List RelPath) (dirs : List String) (stem : String),
        (⟨dirs, ⟨stem, ".CR2"⟩⟩ : RelPath) ∈ files
          → (⟨dirs, ⟨stem, ".CR2"⟩⟩ : RelPath) ∈ discover files)
    ∧ (∀ (files : List RelPath) (dirs : List String) (stem : String),
        (⟨dirs, ⟨stem, ".cr2"⟩⟩ : RelPath) ∈ files
          → (⟨dirs, ⟨stem, ".cr2"⟩⟩ : RelPath) ∈ discover files)
    ∧ (∀ (files : List RelPath) (dirs : List String) (stem : String),
        (⟨dirs, ⟨stem, ".Cr2"⟩⟩ : RelPath) ∈ files
          → (⟨dirs, ⟨stem, ".Cr2"⟩⟩ : RelPath) ∈ discover files) := by
  have base : ∀ (files : List RelPath) (p : RelPath),
      p ∈ discover files
        ↔ p ∈ files
            ∧ (lowerStr p.name.suffix = ".cr2" ∨ lowerStr p.name.suffix = ".dng") := by
    intro files p
    simp [discover, List.mem_filter, RAW_EXT]
  refine ⟨base, ?_, ?_, ?_⟩
  · intro files dirs stem h
    exact (base files _).mpr ⟨h, Or.inl (by decide : lowerStr ".CR2" = ".cr2")⟩
  · intro files dirs stem h
    exact (base files _).mpr ⟨h, Or.inl (by decide : lowerStr ".cr2" = ".cr2")⟩
  · intro files dirs stem h
    exact (base files _).mpr ⟨h, Or.inl (by decide : lowerStr ".Cr2" = ".cr2")⟩

/-- Witness for C7 on a concrete file list and mixed-case extension. -/
theorem discovery_spec_witness :
    (⟨[], ⟨"c", ".Cr2"⟩⟩ : RelPath) ∈ ([⟨[], ⟨"c", ".Cr2"⟩⟩] : List RelPath)
    ∧ (⟨[], ⟨"c", ".Cr2"⟩⟩ : RelPath) ∈ discover [⟨[], ⟨"c", ".Cr2"⟩⟩] :=
  ⟨by decide, discovery_spec.2.2.2 [⟨[], ⟨"c", ".Cr2"⟩⟩] [] "c" (by decide)⟩

/-! ## Claim C8: format policy -/

/-- Claim C8: the format policy is pure and total: format "jpeg" yields
exactly the quality plus optimize mapping; every other format string
yields the empty mapping. -/
theorem save_kwargs_spec (quality : Int) (fmt : String) (hne : fmt ≠ "jpeg") :
    _build_save_kwargs "jpeg" quality
        = [("quality", SaveVal.int quality), ("optimize", SaveVal.bool true)]
    ∧ _build_save_kwargs fmt quality = [] := by
  constructor
  · simp [_build_save_kwargs]
  · simp [_build_save_kwargs, hne]

/-- Witness for C8 at format "png" and quality 92. -/
theorem save_kwargs_spec_witness :
    ("png" ≠ "jpeg")
    ∧ (_build_save_kwargs "jpeg" 92
          = [("quality", SaveVal.int 92), ("optimize", SaveVal.bool true)]
        ∧ _build_save_kwargs "png" 92 = []) :=
  ⟨by decide, save_kwargs_spec 92 "png" (by decide)⟩

/-! ## Claim C9: the convert alias -/

/-- Claim C9: the explicit `convert` sub-command has behavior identical to
the default command on every argument tuple, with identical defaults
(format jpeg, resize 384, quality 92), each invoking the conversion logic
once. -/
theorem convert_alias_spec :
    (∀ (decode : RelPath → Option Raster) (writeOk : AbsPath → Bool)
        (files : List RelPath) (existing : List AbsPath) (output_dir : AbsPath)
        (fmt : String) (resize : Option Int) (quality : Int),
      convert decode writeOk files existing output_dir fmt resize quality
        = main decode writeOk files existing output_dir fmt resize quality)
    ∧ convertDefaults = mainDefaults
    ∧ mainDefaults = ("jpeg", some 384, 92) :=
  ⟨fun _ _ _ _ _ _ _ _ => rfl, rfl, rfl⟩

/-! ## Claim C10: resize disabled for none, zero and negative values -/

/-- Claim C10: with resize unset, zero, or strictly negative, the single
file converter performs no resize at all: the saved raster equals the
decoded raster (negative values behave like zero or unset, no error). -/
theorem nonpositive_resize_spec (decode : RelPath → Option Raster)
    (writeOk : AbsPath → Bool) (input_path : RelPath) (output_path : AbsPath)
    (img : Raster) (quality : Int) (fmt : String)
    (hdec : decode input_path = some img) (hwr : writeOk output_path = true) :
    process_raw decode writeOk input_path output_path none quality fmt
        = some ⟨output_path, img, upperStr fmt,
            _build_save_kwargs (lowerStr fmt) quality⟩
    ∧ process_raw decode writeOk input_path output_path (some 0) quality fmt
        = some ⟨output_path, img, upperStr fmt,
            _build_save_kwargs (lowerStr fmt) quality⟩
    ∧ ∀ z : Int, z ≤ 0 →
        process_raw decode writeOk input_path output_path (some z) quality fmt
          = some ⟨output_path, img, upperStr fmt,
              _build_save_kwargs (lowerStr fmt) quality⟩ := by
  refine ⟨?_, ?_, ?_⟩
  · simp [process_raw, hdec, hwr]
  · simp [process_raw, hdec, hwr]
  · intro z hz
    have hz' : ¬ (0 < z) := by omega
    simp [process_raw, hdec, hwr, hz']

/-- Witness for C10 at a concrete decoder, including a negative resize. -/
theorem nonpositive_resize_spec_witness :
    decAlways ⟨100, 50⟩ ⟨[], ⟨"a", ".cr2"⟩⟩ = some ⟨100, 50⟩
    ∧ ((-5 : Int) ≤ 0)
    ∧ process_raw (decAlways ⟨100, 50⟩) wOkAll ⟨[], ⟨"a", ".cr2"⟩⟩ ["o"]
        (some (-5)) 92 "jpeg"
        = some ⟨["o"], ⟨100, 50⟩, upperStr "jpeg",
            _build_save_kwargs (lowerStr "jpeg") 92⟩ :=
  ⟨rfl, by decide,
   (nonpositive_resize_spec (decAlways ⟨100, 50⟩) wOkAll ⟨[], ⟨"a", ".cr2"⟩⟩
     ["o"] ⟨100, 50⟩ 92 "jpeg" rfl rfl).2.2 (-5) (by decide)⟩

/-! ## Claim C4: the resize invariant

Auxiliary arithmetic about `roundDiv`, then the bounding-box property of
`thumbnail`, then the claim about `process_raw`. -/

/-- Rounding error bound: `roundDiv a b * b` is within `b` of `a`. -/
theorem roundDiv_bounds (a b : Nat) (hb : 0 < b) :
    roundDiv a b * b ≤ a + b ∧ a ≤ roundDiv a b * b + b := by
  have hmod : (2 * a + b) % (2 * b) < 2 * b := Nat.mod_lt _ (by omega)
  have hdiv : 2 * b * ((2 * a + b) / (2 * b)) + (2 * a + b) % (2 * b) = 2 * a + b :=
    Nat.div_add_mod _ _
  have hkey : 2 * b * ((2 * a + b) / (2 * b)) = 2 * (roundDiv a b * b) := by
    unfold roundDiv; ring
  rw [hkey] at hdiv
  revert hdiv hmod
  generalize roundDiv a b * b = X
  generalize (2 * a + b) % (2 * b) = m
  intro hdiv hmod
  constructor <;> omega

/-- The rounded shorter edge never exceeds the bound. -/
theorem roundDiv_le (S n L : Nat) (hL : 0 < L) (hSL : S ≤ L) :
    roundDiv (S * n) L ≤ n := by
  have hSn : S * n ≤ L * n := Nat.mul_le_mul_right n hSL
  have hlt : 2 * (S * n) + L < (n + 1) * (2 * L) := by
    have hexp : (n + 1) * (2 * L) = 2 * (L * n) + 2 * L := by ring
    rw [hexp]
    revert hSn
    generalize S * n = A
    generalize L * n = B
    intro hSn
    omega
  have hdl := (Nat.div_lt_iff_lt_mul (show 0 < 2 * L by omega)).mpr hlt
  unfold roundDiv
  exact Nat.lt_succ_iff.mp hdl

/-- Core of the thumbnail bound, stated over the longer edge `L` and the
shorter edge `S`: the resized longer edge is the bound `n`, and the
resized shorter edge times `L` is within `L` of the exact value `S * n`
(aspect ratio preserved within rounding of a single pixel). -/
theorem thumb_core (L S n : Nat) (hL : 0 < L) (hSL : S ≤ L) (hn : 0 < n) :
    max n (max 1 (roundDiv (S * n) L)) = n
    ∧ min n (max 1 (roundDiv (S * n) L)) * L ≤ S * n + L
    ∧ S * n ≤ min n (max 1 (roundDiv (S * n) L)) * L + L := by
  have hrle : roundDiv (S * n) L ≤ n := roundDiv_le S n L hL hSL
  have hb := roundDiv_bounds (S * n) L hL
  have h1n : max 1 (roundDiv (S * n) L) ≤ n := Nat.max_le.mpr ⟨hn, hrle⟩
  refine ⟨Nat.max_eq_left h1n, ?_, ?_⟩
  · rw [Nat.min_eq_right h1n]
    rcases Nat.eq_zero_or_pos (roundDiv (S * n) L) with h0 | hpos
    · rw [h0]
      have hone : max 1 0 = 1 := rfl
      rw [hone, one_mul]
      exact Nat.le_add_left L (S * n)
    · rw [Nat.max_eq_right hpos]
      exact hb.1
  · rw [Nat.min_eq_right h1n]
    rcases Nat.eq_zero_or_pos (roundDiv (S * n) L) with h0 | hpos
    · rw [h0] at hb
      have hb2 : S * n ≤ L := by simpa using hb.2
      have hone : max 1 0 = 1 := rfl
      rw [h0, hone, one_mul]
      exact le_trans hb2 (Nat.le_add_left L L)
    · rw [Nat.max_eq_right hpos]
      exact hb.2

/-- The bounding-box property of `thumbnail` when the longer edge exceeds
the bound: the output longer edge equals the bound and the aspect ratio is
preserved within rounding. -/
theorem thumbnail_spec (img : Raster) (n : Nat) (hn : 0 < n)
    (hwid : 0 < img.width) (hhei : 0 < img.height)
    (hlt : n < max img.width img.height) :
    max (thumbnail img n).width (thumbnail img n).height = n
    ∧ min (thumbnail img n).width (thumbnail img n).height
          * max img.width img.height
        ≤ min img.width img.height * n + max img.width img.height
    ∧ min img.width img.height * n
        ≤ min (thumbnail img n).width (thumbnail img n).height
              * max img.width img.height
            + max img.width img.height := by
  rcases img with ⟨W, H⟩
  dsimp only at hwid hhei hlt ⊢
  have hcond : ¬ (W ≤ n ∧ H ≤ n) := fun hc =>
    absurd hlt (not_lt.mpr (Nat.max_le.mpr hc))
  unfold thumbnail
  dsimp only
  rw [if_neg hcond]
  by_cases hHW : H ≤ W
  · rw [if_pos hHW]
    dsimp only
    have hM : max W H = W := Nat.max_eq_left hHW
    have hm : min W H = H := Nat.min_eq_right hHW
    rw [hM, hm]
    exact thumb_core W H n hwid hHW hn
  · rw [if_neg hHW]
    dsimp only
    have hWH : W ≤ H := Nat.le_of_not_le hHW
    have hM : max W H = H := Nat.max_eq_right hWH
    have hm : min W H = W := Nat.min_eq_left hWH
    rw [hM, hm, Nat.max_comm (max 1 (roundDiv (W * n) H)) n,
        Nat.min_comm (max 1 (roundDiv (W * n) H)) n]
    exact thumb_core H W n hhei hWH hn

/-- Specification predicate for the resized output of one conversion: the
conversion succeeded, its output raster has longer edge equal to the
bound, and the shorter edge preserves the source aspect ratio within
rounding (one pixel). -/
def resizedOK (src : Raster) (n : Nat) : Option Saved → Prop
  | none => False
  | some sv =>
      max sv.img.width sv.img.height = n
      ∧ min sv.img.width sv.img.height * max src.width src.height
          ≤ min src.width src.height * n + max src.width src.height
      ∧ min src.width src.height * n
          ≤ min sv.img.width sv.img.height * max src.width src.height
              + max src.width src.height

/-- Claim C4: with `resize = N > 0`, a source whose longer edge exceeds N
is resized so its longer edge equals N with aspect ratio preserved within
rounding; a source whose longer edge is at most N is saved with its
decoded dimensions (never upscaled); with resize 0 or unset the decoded
dimensions are kept exactly. -/
theorem resize_spec (decode : RelPath → Option Raster) (writeOk : AbsPath → Bool)
    (input_path : RelPath) (output_path : AbsPath) (img : Raster)
    (quality : Int) (fmt : String)
    (hdec : decode input_path = some img) (hwr : writeOk output_path = true)
    (N : Int) (hN : 0 < N) :
    (max img.width img.height ≤ N.toNat →
      process_raw decode writeOk input_path output_path (some N) quality fmt
        = some ⟨output_path, img, upperStr fmt,
            _build_save_kwargs (lowerStr fmt) quality⟩)
    ∧ (N.toNat < max img.width img.height →
        0 < img.width → 0 < img.height →
        resizedOK img N.toNat
          (process_raw decode writeOk input_path output_path (some N) quality fmt))
    ∧ process_raw decode writeOk input_path output_path none quality fmt
        = some ⟨output_path, img, upperStr fmt,
            _build_save_kwargs (lowerStr fmt) quality⟩
    ∧ process_raw decode writeOk input_path output_path (some 0) quality fmt
        = some ⟨output_path, img, upperStr fmt,
            _build_save_kwargs (lowerStr fmt) quality⟩ := by
  refine ⟨?_, ?_, ?_, ?_⟩
  · intro hle
    have ht : thumbnail img N.toNat = img := by
      unfold thumbnail
      rw [if_pos (Nat.max_le.mp hle)]
    simp [process_raw, hdec, hwr, hN, ht]
  · intro hlt hwid hhei
    have hpr : process_raw decode writeOk input_path output_path (some N) quality fmt
        = some ⟨output_path, thumbnail img N.toNat, upperStr fmt,
            _build_save_kwargs (lowerStr fmt) quality⟩ := by
      simp [process_raw, hdec, hwr, hN]
    rw [hpr]
    have hn : 0 < N.toNat := by omega
    exact thumbnail_spec img N.toNat hn hwid hhei hlt
  · simp [process_raw, hdec, hwr]
  · simp [process_raw, hdec, hwr]

/-- Witness for C4: the 4000x3000 source of the spec scenario at resize
384: the conversion output satisfies the resize bound. -/
theorem resize_spec_witness :
    ((384 : Int).toNat < max 4000 3000 ∧ 0 < 4000 ∧ 0 < 3000 ∧ (0 : Int) < 384)
    ∧ resizedOK ⟨4000, 3000⟩ (384 : Int).toNat
        (process_raw (decAlways ⟨4000, 3000⟩) wOkAll ⟨[], ⟨"a", ".cr2"⟩⟩
          ["o", "a.jpeg"] (some 384) 92 "jpeg") :=
  ⟨⟨by decide, by decide, by decide, by decide⟩,
   (resize_spec (decAlways ⟨4000, 3000⟩) wOkAll ⟨[], ⟨"a", ".cr2"⟩⟩
       ["o", "a.jpeg"] ⟨4000, 3000⟩ 92 "jpeg" rfl rfl 384 (by decide)).2.1
     (by decide) (by decide) (by decide)⟩

/-! ## Invariants of the per-file loop -/

/-- A successful `process_raw` records exactly the requested destination. -/
theorem process_raw_path (decode : RelPath → Option Raster) (writeOk : AbsPath → Bool)
    (input_path : RelPath) (output_path : AbsPath)
    (resize : Option Int) (quality : Int) (fmt : String) (sv : Saved)
    (h : process_raw decode writeOk input_path output_path resize quality fmt
          = some sv) :
    sv.path = output_path := by
  unfold process_raw at h
  cases hd : decode input_path with
  | none => rw [hd] at h; exact absurd h (by simp)
  | some rgb =>
    rw [hd] at h
    dsimp only at h
    cases hwk : writeOk output_path with
    | false => rw [hwk] at h; exact absurd h (by simp)
    | true =>
      rw [hwk] at h
      simp only [if_pos] at h
      obtain rfl := (Option.some.injEq _ _).mp h
      rfl

/-- The set of existing output paths only grows along the loop. -/
theorem runLoop_fs_mono (decode : RelPath → Option Raster) (writeOk : AbsPath → Bool)
    (output_dir : AbsPath) (fmt : String) (resize : Option Int) (quality : Int) :
    ∀ (L : List RelPath) (st st' : LoopState) (res : Option RelPath),
      runLoop decode writeOk output_dir fmt resize quality L st = (st', res) →
      ∀ x, x ∈ st.fs → x ∈ st'.fs := by
  intro L
  induction L with
  | nil =>
    intro st st' res h x hx
    simp only [runLoop, Prod.mk.injEq] at h
    obtain ⟨h1, h2⟩ := h
    subst h1
    exact hx
  | cons p rest ih =>
    intro st st' res h x hx
    simp only [runLoop] at h
    split at h
    · exact ih _ st' res h x hx
    · split at h
      · simp only [Prod.mk.injEq] at h
        obtain ⟨h1, h2⟩ := h
        subst h1
        exact hx
      · exact ih _ st' res h x (List.mem_cons_of_mem _ hx)

/-- Writes already performed stay in the write list along the loop. -/
theorem runLoop_writes_mono (decode : RelPath → Option Raster) (writeOk : AbsPath → Bool)
    (output_dir : AbsPath) (fmt : String) (resize : Option Int) (quality : Int) :
    ∀ (L : List RelPath) (st st' : LoopState) (res : Option RelPath),
      runLoop decode writeOk output_dir fmt resize quality L st = (st', res) →
      ∀ sv, sv ∈ st.writes → sv ∈ st'.writes := by
  intro L
  induction L with
  | nil =>
    intro st st' res h sv hsv
    simp only [runLoop, Prod.mk.injEq] at h
    obtain ⟨h1, h2⟩ := h
    subst h1
    exact hsv
  | cons p rest ih =>
    intro st st' res h sv hsv
    simp only [runLoop] at h
    split at h
    · exact ih _ st' res h sv hsv
    · split at h
      · simp only [Prod.mk.injEq] at h
        obtain ⟨h1, h2⟩ := h
        subst h1
        exact hsv
      · exact ih _ st' res h sv (List.mem_append_left _ hsv)

/-- Every path present at the end of the loop was present at the start or
was recorded as a write of the loop. -/
theorem runLoop_fs_sub (decode : RelPath → Option Raster) (writeOk : AbsPath → Bool)
    (output_dir : AbsPath) (fmt : String) (resize : Option Int) (quality : Int) :
    ∀ (L : List RelPath) (st st' : LoopState) (res : Option RelPath),
      runLoop decode writeOk output_dir fmt resize quality L st = (st', res) →
      ∀ x, x ∈ st'.fs → x ∈ st.fs ∨ x ∈ st'.writes.map Saved.path := by
  intro L
  induction L with
  | nil =>
    intro st st' res h x hx
    simp only [runLoop, Prod.mk.injEq] at h
    obtain ⟨h1, h2⟩ := h
    subst h1
    exact Or.inl hx
  | cons p rest ih =>
    intro st st' res h x hx
    simp only [runLoop] at h
    split at h
    · exact ih _ st' res h x hx
    · split at h
      · simp only [Prod.mk.injEq] at h
        obtain ⟨h1, h2⟩ := h
        subst h1
        exact Or.inl hx
      · rename_i sv heq
        rcases ih _ st' res h x hx with h1 | h1
        · rcases List.mem_cons.mp h1 with h2 | h2
          · subst h2
            have hsv : sv ∈ st'.writes :=
              runLoop_writes_mono decode writeOk output_dir fmt resize quality
                rest _ st' res h sv
                (List.mem_append_right _ (List.mem_singleton_self sv))
            have hp : sv.path = destPath output_dir p fmt :=
              process_raw_path decode writeOk p (destPath output_dir p fmt)
                resize quality fmt sv heq
            exact Or.inr (List.mem_map.mpr ⟨sv, hsv, hp⟩)
          · exact Or.inl h2
        · exact Or.inr h1

/-- No write of the loop targets a path that already existed when the loop
reached it; in particular paths existing at loop start are never written. -/
theorem runLoop_no_overwrite (decode : RelPath → Option Raster) (writeOk : AbsPath → Bool)
    (output_dir : AbsPath) (fmt : String) (resize : Option Int) (quality : Int) :
    ∀ (L : List RelPath) (st st' : LoopState) (res : Option RelPath),
      runLoop decode writeOk output_dir fmt resize quality L st = (st', res) →
      ∀ sv, sv ∈ st'.writes → sv ∈ st.writes ∨ sv.path ∉ st.fs := by
  intro L
  induction L with
  | nil =>
    intro st st' res h sv hsv
    simp only [runLoop, Prod.mk.injEq] at h
    obtain ⟨h1, h2⟩ := h
    subst h1
    exact Or.inl hsv
  | cons p rest ih =>
    intro st st' res h sv hsv
    simp only [runLoop] at h
    split at h
    · exact ih _ st' res h sv hsv
    · rename_i hmem
      split at h
      · simp only [Prod.mk.injEq] at h
        obtain ⟨h1, h2⟩ := h
        subst h1
        exact Or.inl hsv
      · rename_i sv0 heq
        rcases ih _ st' res h sv hsv with h1 | h1
        · rcases List.mem_append.mp h1 with h2 | h2
          · exact Or.inl h2
          · obtain rfl := List.mem_singleton.mp h2
            have hp : sv.path = destPath output_dir p fmt :=
              process_raw_path decode writeOk p (destPath output_dir p fmt)
                resize quality fmt sv heq
            exact Or.inr (by rw [hp]; exact hmem)
        · exact Or.inr (fun hx => h1 (List.mem_cons_of_mem _ hx))

/-- The loop emits only skip and converting notices: it never emits a
summary event that was not already present. -/
theorem runLoop_no_summary (decode : RelPath → Option Raster) (writeOk : AbsPath → Bool)
    (output_dir : AbsPath) (fmt : String) (resize : Option Int) (quality : Int) :
    ∀ (L : List RelPath) (st st' : LoopState) (res : Option RelPath),
      runLoop decode writeOk output_dir fmt resize quality L st = (st', res) →
      (∀ t s, Event.summary t s ∉ st.events) →
      ∀ t s, Event.summary t s ∉ st'.events := by
  intro L
  induction L with
  | nil =>
    intro st st' res h hno t s
    simp only [runLoop, Prod.mk.injEq] at h
    obtain ⟨h1, h2⟩ := h
    subst h1
    exact hno t s
  | cons p rest ih =>
    intro st st' res h hno t s
    simp only [runLoop] at h
    split at h
    · refine ih _ st' res h ?_ t s
      intro t' s' hmem'
      rcases List.mem_append.mp hmem' with h1 | h1
      · exact hno t' s' h1
      · simp at h1
    · split at h
      · simp only [Prod.mk.injEq] at h
        obtain ⟨h1, h2⟩ := h
        subst h1
        intro hmem'
        rcases List.mem_append.mp hmem' with h1 | h1
        · exact hno t s h1
        · simp at h1
      · refine ih _ st' res h ?_ t s
        intro t' s' hmem'
        rcases List.mem_append.mp hmem' with h1 | h1
        · exact hno t' s' h1
        · simp at h1

/-- When the loop completes without aborting, the destination of every
processed file exists afterwards. -/
theorem runLoop_success_mem (decode : RelPath → Option Raster) (writeOk : AbsPath → Bool)
    (output_dir : AbsPath) (fmt : String) (resize : Option Int) (quality : Int) :
    ∀ (L : List RelPath) (st st' : LoopState),
      runLoop decode writeOk output_dir fmt resize quality L st = (st', none) →
      ∀ p ∈ L, destPath output_dir p fmt ∈ st'.fs := by
  intro L
  induction L with
  | nil =>
    intro st st' _ p hp
    exact absurd hp (by simp)
  | cons p rest ih =>
    intro st st' h p' hp'
    simp only [runLoop] at h
    split at h
    · rename_i hmem
      rcases List.mem_cons.mp hp' with h2 | h2
      · subst h2
        exact runLoop_fs_mono decode writeOk output_dir fmt resize quality
          rest _ st' none h _ hmem
      · exact ih _ st' h p' h2
    · split at h
      · simp only [Prod.mk.injEq] at h
        exact absurd h.2 (by simp)
      · rcases List.mem_cons.mp hp' with h2 | h2
        · subst h2
          exact runLoop_fs_mono decode writeOk output_dir fmt resize quality
            rest _ st' none h _ (List.mem_cons_self _ _)
        · exact ih _ st' h p' h2

/-- When the destination of every file already exists, the loop performs
no write, touches no path, and only counts skips. -/
theorem runLoop_all_skip (decode : RelPath → Option Raster) (writeOk : AbsPath → Bool)
    (output_dir : AbsPath) (fmt : String) (resize : Option Int) (quality : Int) :
    ∀ (L : List RelPath) (st : LoopState),
      (∀ p ∈ L, destPath output_dir p fmt ∈ st.fs) →
      (runLoop decode writeOk output_dir fmt resize quality L st).2 = none
      ∧ (runLoop decode writeOk output_dir fmt resize quality L st).1.writes
          = st.writes
      ∧ (runLoop decode writeOk output_dir fmt resize quality L st).1.fs = st.fs
      ∧ (runLoop decode writeOk output_dir fmt resize quality L st).1.skips
          = st.skips + L.length := by
  intro L
  induction L with
  | nil => intro st _; simp [runLoop]
  | cons p rest ih =>
    intro st hall
    have hmem : destPath output_dir p fmt ∈ st.fs :=
      hall p (List.mem_cons_self _ _)
    simp only [runLoop]
    rw [if_pos hmem]
    have ih' := ih
      { st with skips := st.skips + 1, progress := st.progress + 1,
                events := st.events ++ [Event.skip p (destPath output_dir p fmt)] }
      (fun p' hp' => hall p' (List.mem_cons_of_mem _ hp'))
    refine ⟨ih'.1, ih'.2.1, ih'.2.2.1, ?_⟩
    rw [ih'.2.2.2]
    simp only [List.length_cons]
    omega

/-! ## Claim C2: skip-if-exists -/

/-- Claim C2: when the computed destination of the current file already
exists, the loop increments the skip count, emits the skip notice,
advances the progress bar, and continues with the next file without
invoking the converter; and no write of the whole run ever targets that
destination. -/
theorem skip_existing_spec (decode : RelPath → Option Raster) (writeOk : AbsPath → Bool)
    (output_dir : AbsPath) (fmt : String) (resize : Option Int) (quality : Int)
    (raw_file : RelPath) (rest : List RelPath) (st : LoopState)
    (h : destPath output_dir raw_file fmt ∈ st.fs) :
    runLoop decode writeOk output_dir fmt resize quality (raw_file :: rest) st
      = runLoop decode writeOk output_dir fmt resize quality rest
          { st with skips := st.skips + 1, progress := st.progress + 1,
                    events := st.events
                      ++ [Event.skip raw_file (destPath output_dir raw_file fmt)] }
    ∧ ∀ (st' : LoopState) (res : Option RelPath),
        runLoop decode writeOk output_dir fmt resize quality (raw_file :: rest) st
          = (st', res) →
        ∀ sv ∈ st'.writes,
          sv ∈ st.writes ∨ sv.path ≠ destPath output_dir raw_file fmt := by
  constructor
  · simp only [runLoop]
    rw [if_pos h]
  · intro st' res hrun sv hsv
    rcases runLoop_no_overwrite decode writeOk output_dir fmt resize quality
        (raw_file :: rest) st st' res hrun sv hsv with h1 | h1
    · exact Or.inl h1
    · exact Or.inr (fun hEq => h1 (by rw [hEq]; exact h))

/-- Witness for C2 on a concrete state whose filesystem already contains
the destination. -/
theorem skip_existing_spec_witness :
    destPath ["out"] ⟨[], ⟨"a", ".cr2"⟩⟩ "jpeg" ∈ ([["out", "a.jpeg"]] : List AbsPath)
    ∧ runLoop (decAlways ⟨10, 10⟩) wOkAll ["out"] "jpeg" (some 384) 92
        [⟨[], ⟨"a", ".cr2"⟩⟩] ⟨0, 0, [], [], [["out", "a.jpeg"]]⟩
      = runLoop (decAlways ⟨10, 10⟩) wOkAll ["out"] "jpeg" (some 384) 92 []
          ⟨1, 1, [],
           [Event.skip ⟨[], ⟨"a", ".cr2"⟩⟩
              (destPath ["out"] ⟨[], ⟨"a", ".cr2"⟩⟩ "jpeg")],
           [["out", "a.jpeg"]]⟩ :=
  ⟨by decide,
   (skip_existing_spec (decAlways ⟨10, 10⟩) wOkAll ["out"] "jpeg" (some 384) 92
     ⟨[], ⟨"a", ".cr2"⟩⟩ [] ⟨0, 0, [], [], [["out", "a.jpeg"]]⟩ (by decide)).1⟩

/-! ## Claim C6: per-file failures abort the batch -/

/-- Claim C6: a decode or write failure on one file propagates uncaught:
the loop stops at the failing file (files after it are not processed and
nothing further is written), the orchestrator surfaces the failure, and no
summary event is emitted for such a run. -/
theorem failure_aborts_spec (decode : RelPath → Option Raster) (writeOk : AbsPath → Bool)
    (output_dir : AbsPath) (fmt : String) (resize : Option Int) (quality : Int)
    (raw_file : RelPath) (rest : List RelPath) (st : LoopState)
    (h1 : destPath output_dir raw_file fmt ∉ st.fs)
    (h2 : process_raw decode writeOk raw_file (destPath output_dir raw_file fmt)
            resize quality fmt = none) :
    runLoop decode writeOk output_dir fmt resize quality (raw_file :: rest) st
        = ({ st with events := st.events
              ++ [Event.converting raw_file (destPath output_dir raw_file fmt)] },
           some raw_file)
    ∧ (∀ (files : List RelPath) (existing : List AbsPath) (f : RelPath),
        (_do_convert decode writeOk files existing output_dir fmt resize
            quality).outcome = Outcome.failed f →
        ∀ t s, Event.summary t s
          ∉ (_do_convert decode writeOk files existing output_dir fmt resize
              quality).events)
    ∧ (∀ (files : List RelPath) (existing : List AbsPath) (st' : LoopState)
          (f : RelPath),
        (discover files).isEmpty = false →
        runLoop decode writeOk output_dir fmt resize quality (discover files)
            (initState existing) = (st', some f) →
        _do_convert decode writeOk files existing output_dir fmt resize quality
          = ⟨st'.writes, st'.events, Outcome.failed f⟩) := by
  refine ⟨?_, ?_, ?_⟩
  · simp only [runLoop]
    rw [if_neg h1, h2]
  · intro files existing f hout t s
    cases hE : (discover files).isEmpty with
    | true =>
      have hh : (_do_convert decode writeOk files existing output_dir fmt resize
          quality).outcome = Outcome.noFiles := by
        simp [_do_convert, hE]
      rw [hh] at hout
      exact absurd hout (by simp)
    | false =>
      rcases hR : runLoop decode writeOk output_dir fmt resize quality
          (discover files) (initState existing) with ⟨st1, res1⟩
      cases res1 with
      | none =>
        have hh : (_do_convert decode writeOk files existing output_dir fmt resize
            quality).outcome
            = Outcome.success (discover files).length st1.skips := by
          simp [_do_convert, hE, hR]
        rw [hh] at hout
        exact absurd hout (by simp)
      | some f0 =>
        have hh : _do_convert decode writeOk files existing output_dir fmt resize
            quality = ⟨st1.writes, st1.events, Outcome.failed f0⟩ := by
          simp [_do_convert, hE, hR]
        rw [hh]
        exact runLoop_no_summary decode writeOk output_dir fmt resize quality
          (discover files) (initState existing) st1 (some f0) hR
          (fun t' s' hmem => by simp [initState] at hmem) t s
  · intro files existing st' f hEF hRL
    simp [_do_convert, hEF, hRL]

/-- Witness for C6: a decoder that always fails aborts the loop at the
first file, leaving the second file unprocessed. -/
theorem failure_aborts_spec_witness :
    destPath ["o"] ⟨[], ⟨"a", ".cr2"⟩⟩ "jpeg" ∉ ([] : List AbsPath)
    ∧ process_raw decodeNone wOkAll ⟨[], ⟨"a", ".cr2"⟩⟩
        (destPath ["o"] ⟨[], ⟨"a", ".cr2"⟩⟩ "jpeg") (some 384) 92 "jpeg" = none
    ∧ runLoop decodeNone wOkAll ["o"] "jpeg" (some 384) 92
        [⟨[], ⟨"a", ".cr2"⟩⟩, ⟨[], ⟨"b", ".cr2"⟩⟩] ⟨0, 0, [], [], []⟩
      = (⟨0, 0, [],
          [Event.converting ⟨[], ⟨"a", ".cr2"⟩⟩
             (destPath ["o"] ⟨[], ⟨"a", ".cr2"⟩⟩ "jpeg")], []⟩,
         some ⟨[], ⟨"a", ".cr2"⟩⟩) :=
  ⟨by decide, rfl,
   (failure_aborts_spec decodeNone wOkAll ["o"] "jpeg" (some 384) 92
     ⟨[], ⟨"a", ".cr2"⟩⟩ [⟨[], ⟨"b", ".cr2"⟩⟩] ⟨0, 0, [], [], []⟩
     (by decide) rfl).1⟩

/-! ## Claim C3: idempotence of a second run -/

/-- Claim C3: after a successful run, rerunning with identical arguments
over unchanged inputs produces zero writes — every discovered file is
skipped — and the second summary's skip count equals the first run's
processed count (its total). -/
theorem idempotent_second_run (decode : RelPath → Option Raster)
    (writeOk : AbsPath → Bool) (files : List RelPath) (existing : List AbsPath)
    (output_dir : AbsPath) (fmt : String) (resize : Option Int) (quality : Int)
    (t s : Nat)
    (h : (_do_convert decode writeOk files existing output_dir fmt resize
          quality).outcome = Outcome.success t s) :
    (_do_convert decode writeOk files
        ((_do_convert decode writeOk files existing output_dir fmt resize
            quality).writes.map Saved.path ++ existing)
        output_dir fmt resize quality).writes = []
    ∧ (_do_convert decode writeOk files
        ((_do_convert decode writeOk files existing output_dir fmt resize
            quality).writes.map Saved.path ++ existing)
        output_dir fmt resize quality).outcome = Outcome.success t t := by
  cases hE : (discover files).isEmpty with
  | true =>
    exfalso
    have hh : (_do_convert decode writeOk files existing output_dir fmt resize
        quality).outcome = Outcome.noFiles := by
      simp [_do_convert, hE]
    rw [hh] at h
    exact absurd h (by simp)
  | false =>
    rcases hR : runLoop decode writeOk output_dir fmt resize quality
        (discover files) (initState existing) with ⟨st1, res1⟩
    cases res1 with
    | some f0 =>
      exfalso
      have hh : (_do_convert decode writeOk files existing output_dir fmt resize
          quality).outcome = Outcome.failed f0 := by
        simp [_do_convert, hE, hR]
      rw [hh] at h
      exact absurd h (by simp)
    | none =>
      have hout1 : _do_convert decode writeOk files existing output_dir fmt resize
          quality
          = ⟨st1.writes,
             st1.events ++ [Event.summary (discover files).length st1.skips],
             Outcome.success (discover files).length st1.skips⟩ := by
        simp [_do_convert, hE, hR]
      rw [hout1] at h ⊢
      dsimp only at h ⊢
      injection h with hT hS
      subst hT
      have hmem2 : ∀ p ∈ discover files,
          destPath output_dir p fmt ∈ st1.writes.map Saved.path ++ existing := by
        intro p hp
        have hfs := runLoop_success_mem decode writeOk output_dir fmt resize
          quality (discover files) (initState existing) st1 hR p hp
        rcases runLoop_fs_sub decode writeOk output_dir fmt resize quality
            (discover files) (initState existing) st1 none hR _ hfs with h1 | h1
        · exact List.mem_append.mpr (Or.inr h1)
        · exact List.mem_append.mpr (Or.inl h1)
      have hskip := runLoop_all_skip decode writeOk output_dir fmt resize quality
        (discover files) (initState (st1.writes.map Saved.path ++ existing))
        (fun p hp => hmem2 p hp)
      rcases hR2 : runLoop decode writeOk output_dir fmt resize quality
          (discover files) (initState (st1.writes.map Saved.path ++ existing))
          with ⟨st2, res2⟩
      rw [hR2] at hskip
      obtain ⟨hs1, hs2, hs3, hs4⟩ := hskip
      dsimp only at hs1 hs2 hs3 hs4
      subst hs1
      have hout2 : _do_convert decode writeOk files
          (st1.writes.map Saved.path ++ existing) output_dir fmt resize quality
          = ⟨st2.writes,
             st2.events ++ [Event.summary (discover files).length st2.skips],
             Outcome.success (discover files).length st2.skips⟩ := by
        simp [_do_convert, hE, hR2]
      rw [hout2]
      dsimp only
      refine ⟨hs2, ?_⟩
      have hsk : st2.skips = (discover files).length := by
        simp [initState] at hs4
        omega
      rw [hsk]

/-- Witness for C3: one RAW file, an empty output tree; the first run
succeeds with no skip and the second run skips the single file. -/
theorem idempotent_second_run_witness :
    (_do_convert (decAlways ⟨10, 10⟩) wOkAll [⟨[], ⟨"a", ".cr2"⟩⟩] [] ["o"]
        "jpeg" none 92).outcome = Outcome.success 1 0
    ∧ ((_do_convert (decAlways ⟨10, 10⟩) wOkAll [⟨[], ⟨"a", ".cr2"⟩⟩]
          ((_do_convert (decAlways ⟨10, 10⟩) wOkAll [⟨[], ⟨"a", ".cr2"⟩⟩] []
              ["o"] "jpeg" none 92).writes.map Saved.path ++ [])
          ["o"] "jpeg" none 92).writes = []
        ∧ (_do_convert (decAlways ⟨10, 10⟩) wOkAll [⟨[], ⟨"a", ".cr2"⟩⟩]
            ((_do_convert (decAlways ⟨10, 10⟩) wOkAll [⟨[], ⟨"a", ".cr2"⟩⟩] []
                ["o"] "jpeg" none 92).writes.map Saved.path ++ [])
            ["o"] "jpeg" none 92).outcome = Outcome.success 1 1) :=
  ⟨rfl,
   idempotent_second_run (decAlways ⟨10, 10⟩) wOkAll [⟨[], ⟨"a", ".cr2"⟩⟩] []
     ["o"] "jpeg" none 92 1 0 rfl⟩

end ConvertPipeline
